import Mathlib

/-!
Verification of the suselog journal/group/test core (src/suselog/library/suselog.c,
suselog.h, suselog_p.h) against its natural-language specification.

Embedding conventions:
* C strings become Lean `String`s; the fixed 256-byte `snprintf` scratch buffers are
  modelled as unbounded, so theorems about generated names carry explicit byte-size
  side conditions under which no truncation can occur in the C code.
* `struct timeval` instants are modelled as a single `Nat` (microseconds); every
  operation that calls `gettimeofday` takes the current instant as an explicit
  `now` argument.  A `double` duration becomes the `Nat` difference `now - timestamp`;
  none of the claims depend on floating-point rounding.
* The `unsigned int` autoname counter wraps at 2^32, which matters for name
  uniqueness, so it is kept modulo 2^32.  The statistics counters are kept as plain
  `Nat`: every claim about them is an equation between values built from the same
  additions, so it holds in `Nat` exactly when it holds in 32-bit arithmetic.
* The optional `suselog_writer_t` observer only prints to the console and never
  touches the data model, so its hooks are not modelled.
* `current.group` and `current.test` are raw pointers in C; since groups and tests
  are only ever appended, they are modelled as stable indices into the journal's
  group list (and the group's test list).
-/

set_option maxHeartbeats 1000000

namespace Suselog

/-- `suselog_status_t` from suselog.h: RUNNING, SUCCESS, FAILURE, ERROR, SKIPPED. -/
inductive Status where
  | running
  | success
  | failure
  | error
  | skipped
deriving DecidableEq, Repr

/-- The numeric value of a `suselog_status_t` enumerator (used by the `%u` format
in the conflicting-status warning message). -/
def Status.code : Status → Nat
  | .running => 0
  | .success => 1
  | .failure => 2
  | .error => 3
  | .skipped => 4

/-- `suselog_severity_t` from suselog.h: INFO, WARNING, FAILURE, ERROR, STDOUT, STDERR. -/
inductive Severity where
  | info
  | warning
  | failure
  | error
  | stdout
  | stderr
deriving DecidableEq, Repr

/-- `suselog_info_t`: one severity-tagged message attached to a test. -/
structure Info where
  severity : Severity
  message : String
deriving DecidableEq, Repr

/-- `suselog_stats_t` as declared in the public header suselog.h (seven counters;
the stale copy of the struct in suselog_p.h lacks `num_skipped`). -/
structure Stats where
  num_tests : Nat := 0
  num_succeeded : Nat := 0
  num_failed : Nat := 0
  num_errors : Nat := 0
  num_warnings : Nat := 0
  num_disabled : Nat := 0
  num_skipped : Nat := 0
deriving DecidableEq, Repr

/-- `suselog_stats_update` (suselog.c:624): increments exactly one counter for a
terminal status; other statuses are a no-op. -/
def suselog_stats_update (stats : Stats) (status : Status) : Stats :=
  match status with
  | .success => { stats with num_succeeded := stats.num_succeeded + 1 }
  | .failure => { stats with num_failed := stats.num_failed + 1 }
  | .error => { stats with num_errors := stats.num_errors + 1 }
  | _ => stats

/-- `suselog_stats_aggregate` (suselog.c:644): adds the child's counters into the
parent.  Note: the C function adds six of the seven counters and never touches
`num_skipped`. -/
def suselog_stats_aggregate (agg sub : Stats) : Stats :=
  { agg with
    num_tests := agg.num_tests + sub.num_tests
    num_succeeded := agg.num_succeeded + sub.num_succeeded
    num_failed := agg.num_failed + sub.num_failed
    num_errors := agg.num_errors + sub.num_errors
    num_warnings := agg.num_warnings + sub.num_warnings
    num_disabled := agg.num_disabled + sub.num_disabled }

/-- Element-wise sum of all seven counters, following the spec's words
("aggregate(parent, child): element-wise sum of all seven counters into parent");
kept separate from `suselog_stats_aggregate` so the two can be compared. -/
def statsAddSpec (a b : Stats) : Stats :=
  { num_tests := a.num_tests + b.num_tests
    num_succeeded := a.num_succeeded + b.num_succeeded
    num_failed := a.num_failed + b.num_failed
    num_errors := a.num_errors + b.num_errors
    num_warnings := a.num_warnings + b.num_warnings
    num_disabled := a.num_disabled + b.num_disabled
    num_skipped := a.num_skipped + b.num_skipped }

/-- Element-wise sum of a list of Stats values. -/
def statsSum (l : List Stats) : Stats := l.foldr statsAddSpec {}

/-- `SUSELOG_LEVEL_GROUP` from suselog.h. -/
def SUSELOG_LEVEL_GROUP : Nat := 0

/-- `SUSELOG_LEVEL_TEST` from suselog.h. -/
def SUSELOG_LEVEL_TEST : Nat := 1

/-- `suselog_test_t` (suselog_p.h): the `suselog_common_t` fields are inlined
(name, description, creation timestamp, duration).  `calloc` zero-fills, so the
initial status is RUNNING (enumerator 0). -/
structure Test where
  name : String
  description : Option String
  timestamp : Nat
  duration : Nat := 0
  status : Status := .running
  extra_info : List Info := []
deriving DecidableEq, Repr

/-- `suselog_group_t` (suselog_p.h) with `suselog_common_t` inlined.  The group's
own autoname generator (base `"test"`) is initialised by `suselog_group_new` but
never consumed anywhere in suselog.c. -/
structure Group where
  name : String
  description : Option String
  timestamp : Nat
  duration : Nat := 0
  autonameIndex : Nat := 0
  stats : Stats := {}
  hostname : String
  id : Nat
  tests : List Test := []
deriving DecidableEq, Repr

/-- `suselog_journal_t` (suselog_p.h) with `suselog_common_t` inlined.
`curGroup`/`curTest` model the `current.group`/`current.test` pointers as indices
into `groups` (and the indexed group's `tests`); groups and tests are only ever
appended, so indices are stable.  `autonameIndex` is the journal's group autoname
counter (base `"group"`), a C `unsigned int`, kept modulo 2^32. -/
structure Journal where
  name : String
  timestamp : Nat
  duration : Nat := 0
  stats : Stats := {}
  autonameIndex : Nat := 0
  hostname : String
  max_name_level : Nat
  systemout_level : Nat
  num_groups : Nat := 0
  groups : List Group := []
  curGroup : Option Nat := none
  curTest : Option (Nat × Nat) := none
deriving DecidableEq, Repr

/-- Replace the element at index `i` of `l` by `f` of it; out-of-range indices
leave the list unchanged (the corresponding C pointer accesses only happen on
valid current pointers). -/
def listModify (l : List α) (i : Nat) (f : α → α) : List α :=
  match l, i with
  | [], _ => []
  | x :: xs, 0 => f x :: xs
  | x :: xs, n + 1 => x :: listModify xs n f

/-- Dereference the `current.group`-style index `gi`. -/
def Journal.getGroup (j : Journal) (gi : Nat) : Option Group :=
  j.groups[gi]?

/-- Dereference a `(group index, test index)` pair. -/
def Journal.getTest (j : Journal) (gi ti : Nat) : Option Test :=
  (j.groups[gi]?).bind fun g => g.tests[ti]?

/-- Apply `f` to the group at index `gi`. -/
def Journal.modifyGroup (j : Journal) (gi : Nat) (f : Group → Group) : Journal :=
  { j with groups := listModify j.groups gi f }

/-- Apply `f` to the test at `(gi, ti)`. -/
def Journal.modifyTest (j : Journal) (gi ti : Nat) (f : Test → Test) : Journal :=
  j.modifyGroup gi fun g => { g with tests := listModify g.tests ti f }

/-- `__suselog_test_log_extra` (suselog.c:1034): append one Info record. -/
def __suselog_test_log_extra (t : Test) (sev : Severity) (msg : String) : Test :=
  { t with extra_info := t.extra_info ++ [⟨sev, msg⟩] }

/-- `__suselog_vlogmsg` (suselog.c:243): if a test is current, log the formatted
message to it (the writer hook only prints and is not modelled). -/
def __suselog_vlogmsg (j : Journal) (sev : Severity) (msg : String) : Journal :=
  match j.curTest with
  | none => j
  | some (gi, ti) => j.modifyTest gi ti fun t => __suselog_test_log_extra t sev msg

/-- `__suselog_test_running` (suselog.c:561): is there a current test whose
status is RUNNING? -/
def __suselog_test_running (j : Journal) : Bool :=
  match j.curTest with
  | none => false
  | some (gi, ti) =>
      match j.getTest gi ti with
      | none => false
      | some t => t.status = .running

/-- The message formatted by `suselog_test_finish` on conflicting stati:
`"conflicting test stati - %u vs %u"`. -/
def conflictMsg (old new : Status) : String :=
  "conflicting test stati - " ++ Nat.repr old.code ++ " vs " ++ Nat.repr new.code

/-- `suselog_test_finish` (suselog.c:599).  With a current test: if its status
already left RUNNING and differs from the requested one, only the warning is
logged (via `suselog_warning` → `__suselog_vlogmsg`, which appends a WARNING
record to the current test); otherwise the duration is recomputed, the owning
group's stats are updated exactly when the test was still RUNNING, and the
status is stored. -/
def suselog_test_finish (j : Journal) (status : Status) (now : Nat) : Journal :=
  match j.curTest with
  | none => j
  | some (gi, ti) =>
      match j.getTest gi ti with
      | none => j
      | some t =>
          if t.status ≠ .running ∧ t.status ≠ status then
            __suselog_vlogmsg j .warning (conflictMsg t.status status)
          else
            let j1 := j.modifyTest gi ti fun t' => { t' with duration := now - t'.timestamp }
            let j2 :=
              if t.status = .running then
                match j1.curGroup with
                | some cg =>
                    j1.modifyGroup cg fun g => { g with stats := suselog_stats_update g.stats status }
                | none => j1
              else j1
            j2.modifyTest gi ti fun t' => { t' with status := status }

/-- The tail of `suselog_group_finish` after the still-running current test has
been finished: aggregate the current group's stats into the journal, recompute
the group's duration, clear the current-group pointer (the current-test pointer
is left untouched). -/
def groupFinishCore (j1 : Journal) (now : Nat) : Journal :=
  let j2 :=
    match j1.curGroup with
    | none => j1
    | some gi =>
        match j1.getGroup gi with
        | none => j1
        | some g =>
            let j' := { j1 with stats := suselog_stats_aggregate j1.stats g.stats }
            j'.modifyGroup gi fun g' => { g' with duration := now - g'.timestamp }
  { j2 with curGroup := none }

/-- `suselog_group_finish` (suselog.c:455): finish a still-running current test
as SUCCESS, then `groupFinishCore`. -/
def suselog_group_finish (j : Journal) (now : Nat) : Journal :=
  groupFinishCore (if __suselog_test_running j then suselog_test_finish j .success now else j) now

/-- `suselog_autoname_next` (suselog.c:136) for the journal's group autoname:
formats `base ++ index` with `snprintf "%s%u"` and post-increments the
`unsigned int` counter. -/
def autonameNext (base : String) (index : Nat) : String × Nat :=
  (base ++ Nat.repr index, (index + 1) % 2 ^ 32)

/-- `suselog_group_begin` (suselog.c:407): finish the current group, pick the
autoname when no name is given, build the full name `journal.name ++ "." ++ name`,
append a fresh group (zero stats, id = num_groups++, the journal's hostname) and
make it current, resetting the current test. -/
def suselog_group_begin (j : Journal) (name : Option String) (description : Option String)
    (now : Nat) : Journal :=
  let j1 := suselog_group_finish j now
  let (nm, j2) :=
    match name with
    | none =>
        let (nm, idx) := autonameNext "group" j1.autonameIndex
        (nm, { j1 with autonameIndex := idx })
    | some n => (n, j1)
  let fullname := j2.name ++ "." ++ nm
  let g : Group :=
    { name := fullname, description := description, timestamp := now,
      hostname := j2.hostname, id := j2.num_groups }
  { j2 with
    num_groups := j2.num_groups + 1
    groups := j2.groups ++ [g]
    curGroup := some j2.groups.length
    curTest := none }

/-- The name resolution of `suselog_test_begin` (suselog.c:508): the group's
name when no name is given or the configured max-naming-level forbids per-test
names, else `group.name ++ "." ++ name`. -/
def resolveTestName (j : Journal) (g : Group) (name : Option String) : String :=
  match name with
  | none => g.name
  | some n => if j.max_name_level < SUSELOG_LEVEL_TEST then g.name else g.name ++ "." ++ n

/-- The tail of `suselog_test_begin` after the current group has been ensured
and a still-RUNNING current test finished: append the new RUNNING test to the
current group, bump the group's `num_tests` and make the test current. -/
def testBeginCore (j2 : Journal) (name : Option String) (description : Option String)
    (now : Nat) : Journal :=
  match j2.curGroup with
  | none => j2
  | some gi =>
      match j2.getGroup gi with
      | none => j2
      | some g =>
          let t : Test := { name := resolveTestName j2 g name, description := description,
                            timestamp := now }
          let ti := g.tests.length
          let j3 := j2.modifyGroup gi fun g' =>
            { g' with tests := g'.tests ++ [t],
                      stats := { g'.stats with num_tests := g'.stats.num_tests + 1 } }
          { j3 with curTest := some (gi, ti) }

/-- `suselog_test_begin` (suselog.c:490): ensure a current group (beginning an
anonymous one if needed), implicitly finish a still-RUNNING current test as
SUCCESS, then `testBeginCore`. -/
def suselog_test_begin (j : Journal) (name : Option String) (description : Option String)
    (now : Nat) : Journal :=
  let j1 :=
    match j.curGroup with
    | none => suselog_group_begin j none none now
    | some _ => j
  let j2 := if __suselog_test_running j1 then suselog_test_finish j1 .success now else j1
  testBeginCore j2 name description now

/-- `suselog_journal_new` (suselog.c:151): fresh journal with the captured
hostname, group autoname counter at 0, per-test names disabled
(max_name_level = GROUP) and system-out attached at the test level. -/
def suselog_journal_new (name : String) (hostname : String) (now : Nat) : Journal :=
  { name := name, timestamp := now, hostname := hostname,
    max_name_level := SUSELOG_LEVEL_GROUP, systemout_level := SUSELOG_LEVEL_TEST }

/-- `suselog_finish` (suselog.c:234): finish the current group and recompute the
journal duration. -/
def suselog_finish (j : Journal) (now : Nat) : Journal :=
  let j1 := suselog_group_finish j now
  { j1 with duration := now - j1.timestamp }

/-- One public call in a test run, for reasoning about whole call sequences:
begin-group, begin-test, a status report (`suselog_success`/`suselog_failure`/
`suselog_error`/`suselog_test_finish`), or a message-only report
(`suselog_info`/`suselog_warning`). -/
inductive Op where
  | beginGroup (name description : Option String) (now : Nat)
  | beginTest (name description : Option String) (now : Nat)
  | finishTest (status : Status) (now : Nat)
  | logMsg (sev : Severity) (msg : String)

/-- Apply one call to the journal. -/
def applyOp (j : Journal) : Op → Journal
  | .beginGroup n d now => suselog_group_begin j n d now
  | .beginTest n d now => suselog_test_begin j n d now
  | .finishTest s now => suselog_test_finish j s now
  | .logMsg sev msg => __suselog_vlogmsg j sev msg

/-- Run a sequence of calls. -/
def runOps (j : Journal) (ops : List Op) : Journal := ops.foldl applyOp j

/-- `suselog_test_get_message` (suselog.c:549): first recorded message of the
given severity, if any. -/
def suselog_test_get_message (t : Test) (sev : Severity) : Option String :=
  (t.extra_info.find? fun i => i.severity == sev).map Info.message

/-- The severity tag written by `__suselog_junit_pre_string_append`
(suselog.c:923) before each message.  Note the C code writes the
`"standard output:\n"` header for STDERR records as well. -/
def severityTag : Severity → String
  | .failure => "FAIL: "
  | .error => "ERROR: "
  | .stdout => "standard output:\n"
  | .stderr => "standard output:\n"
  | _ => ""

/-- `fputc('\n')` guard in `__suselog_junit_pre_string_append`: a newline is
appended when the message is non-empty and does not already end in one. -/
def needsNewline (s : String) : Bool :=
  match s.data.getLast? with
  | none => false
  | some c => c ≠ '\n'

/-- One Info record as rendered by `__suselog_junit_pre_string_append`. -/
def renderInfo (i : Info) : String :=
  severityTag i.severity ++ i.message ++ (if needsNewline i.message then "\n" else "")

/-- `__suselog_junit_pre_string_append` (suselog.c:923) over the whole Info log:
every record of every severity, in order. -/
def renderInfoLog (l : List Info) : String :=
  String.join (l.map renderInfo)

/-- An XML element as built by the serializer: name, attributes in insertion
order, CDATA body. -/
structure JunitElem where
  name : String
  attrs : List (String × String)
  cdata : String
deriving DecidableEq, Repr

/-- `__suselog_junit_pre_string` (suselog.c:959): render the test's whole Info
log; if the result is empty produce no element, otherwise an element with the
`type` attribute, a `message` attribute equal to the first message of the given
severity when one exists, and the rendered log as CDATA. -/
def __suselog_junit_pre_string (name type : String) (t : Test) (sev : Severity) :
    Option JunitElem :=
  let s := renderInfoLog t.extra_info
  if s = "" then none
  else
    some
      { name := name
        attrs :=
          [("type", type)] ++
            (match suselog_test_get_message t sev with
             | some m => [("message", m)]
             | none => [])
        cdata := s }

/-- The `testcase` node built by `__suselog_junit_test` (suselog.c:810):
classname/name/time attributes, the optional `status` attribute, and the
`failure`/`error` child produced by the status switch (system-out children are
attached separately by `__suselog_junit_group`). -/
structure JunitTestcase where
  classname : String
  caseName : Option String
  time : Nat
  status : Option String
  children : List JunitElem
deriving DecidableEq, Repr

/-- `__suselog_junit_test` (suselog.c:810). -/
def __suselog_junit_test (t : Test) : JunitTestcase :=
  { classname := t.name
    caseName := t.description
    time := t.duration
    status :=
      match t.status with
      | .success => some "success"
      | .failure => some "failure"
      | .error => some "error"
      | _ => none
    children :=
      match t.status with
      | .failure => (__suselog_junit_pre_string "failure" "randomFailure" t .failure).toList
      | .error => (__suselog_junit_pre_string "error" "randomError" t .error).toList
      | _ => [] }

/-- The fields of `struct tm` used by `__suselog_junit_timestamp`, as filled in
by `localtime`: `tm_year` is years since 1900 and `tm_mon` is months since
January (0..11).  Instants handled here are past the epoch, so `Nat` suffices. -/
structure Tm where
  tm_year : Nat
  tm_mon : Nat
  tm_mday : Nat
  tm_hour : Nat
  tm_min : Nat
  tm_sec : Nat
deriving DecidableEq, Repr

/-- `snprintf "%02u"`: zero-pad to two digits. -/
def fmt02 (n : Nat) : String :=
  if n < 10 then "0" ++ Nat.repr n else Nat.repr n

/-- `snprintf "%4u"`: space-pad on the left to width four. -/
def fmt4 (n : Nat) : String :=
  let s := Nat.repr n
  ⟨List.replicate (4 - s.length) ' '⟩ ++ s

/-- `__suselog_junit_timestamp` (suselog.c:994): formats
`"%4u-%02u-%02uT%02u:%02u:%02u"` from `tm_year + 1900`, `tm_mon`, `tm_mday`,
`tm_hour`, `tm_min`, `tm_sec`.  Note that `tm_mon` is used without the `+ 1`
needed to obtain the civil month number. -/
def __suselog_junit_timestamp (tm : Tm) : String :=
  fmt4 (tm.tm_year + 1900) ++ "-" ++ fmt02 tm.tm_mon ++ "-" ++ fmt02 tm.tm_mday ++ "T" ++
    fmt02 tm.tm_hour ++ ":" ++ fmt02 tm.tm_min ++ ":" ++ fmt02 tm.tm_sec

/-- The local civil time of the same instant rendered as the spec words it:
`YYYY-MM-DDTHH:MM:SS`, the month field being the civil month number
(`tm_mon + 1` under the `localtime` contract), no timezone, no sub-seconds. -/
def junitTimestampSpec (tm : Tm) : String :=
  fmt4 (tm.tm_year + 1900) ++ "-" ++ fmt02 (tm.tm_mon + 1) ++ "-" ++ fmt02 tm.tm_mday ++ "T" ++
    fmt02 tm.tm_hour ++ ":" ++ fmt02 tm.tm_min ++ ":" ++ fmt02 tm.tm_sec

/-- A node of the XML-tree collaborator, as far as the merge engine inspects it:
an element name and the list of child elements. -/
inductive XNode where
  | mk (name : String) (children : List XNode)

/-- Element name of an `XNode`. -/
def XNode.name : XNode → String
  | .mk n _ => n

/-- Children of an `XNode`. -/
def XNode.children : XNode → List XNode
  | .mk _ c => c

/-- The `for (collection = root->children; ...)` loop of `suselog_journal_merge`
(suselog.c:716).  State: the group's `merged` document (`none` while
`group->merged` is still NULL).  A collection not named `"testsuites"` aborts
the loop with an error (`goto out`); otherwise its `testsuite` children are
reparented into `merged` (non-`testsuite` children are warned about and
skipped), `merged` being allocated first.  Returns (aborted, merged). -/
def mergeCollections (merged : Option (List XNode)) :
    List XNode → Bool × Option (List XNode)
  | [] => (false, merged)
  | c :: rest =>
      if c.name = "testsuites" then
        let merged' :=
          if c.children.isEmpty then merged
          else some ((merged.getD []) ++ c.children.filter fun n => n.name == "testsuite")
        mergeCollections merged' rest
      else (true, merged)

/-- `suselog_journal_merge` (suselog.c:695), modelled over the result of
`xml_document_read` (`none` when the file cannot be read; a successfully parsed
document always carries a root node, so the `root == NULL` branch is vacuous).
Returns the C function's `rv` together with the group's `merged` content.  The
local `int found = 0` is never incremented anywhere in the function, so the
final `if (found) rv = 0;` never fires and `rv` stays `-1`. -/
def suselog_journal_merge (doc : Option XNode) : Int × Option (List XNode) :=
  match doc with
  | none => (-1, none)
  | some root =>
      let merged := (mergeCollections none root.children).2
      let found : Bool := false
      (if found then 0 else -1, merged)

/-! ### Generic helper lemmas -/

theorem listModify_map_comm (l : List α) (i : Nat) (f : α → α) (p : α → β) (h : β → β)
    (hc : ∀ a, p (f a) = h (p a)) : (listModify l i f).map p = listModify (l.map p) i h := by
  induction l generalizing i with
  | nil => rfl
  | cons x xs ih =>
      cases i with
      | zero => simp [listModify, hc]
      | succ n => simp [listModify, ih]

theorem listModify_map_eq (l : List α) (i : Nat) (f : α → α) (p : α → β)
    (hc : ∀ a, p (f a) = p a) : (listModify l i f).map p = l.map p := by
  rw [listModify_map_comm l i f p id hc]
  induction l generalizing i with
  | nil => rfl
  | cons x xs ih =>
      cases i with
      | zero => simp [listModify]
      | succ n => simp [listModify, ih]

theorem listModify_length (l : List α) (i : Nat) (f : α → α) :
    (listModify l i f).length = l.length := by
  induction l generalizing i with
  | nil => rfl
  | cons x xs ih => cases i <;> simp [listModify, ih]

theorem listModify_getElem? (l : List α) (i : Nat) (f : α → α) (k : Nat) :
    (listModify l i f)[k]? = if k = i then (l[k]?).map f else l[k]? := by
  induction l generalizing i k with
  | nil => simp [listModify]
  | cons x xs ih =>
      cases i with
      | zero => cases k <;> simp [listModify]
      | succ n =>
          cases k with
          | zero => simp [listModify]
          | succ m => simpa [listModify] using ih n m

theorem listModify_take (l : List α) (i : Nat) (f : α → α) :
    (listModify l i f).take i = l.take i := by
  induction l generalizing i with
  | nil => rfl
  | cons x xs ih => cases i <;> simp [listModify, ih]

theorem listModify_listModify (l : List α) (i : Nat) (f g : α → α) :
    listModify (listModify l i g) i f = listModify l i (fun a => f (g a)) := by
  induction l generalizing i with
  | nil => rfl
  | cons x xs ih => cases i <;> simp [listModify, ih]

theorem listModify_id (l : List α) (i : Nat) : listModify l i (fun a => a) = l := by
  induction l generalizing i with
  | nil => rfl
  | cons x xs ih => cases i <;> simp [listModify, ih]

theorem listModify_congr (l : List α) (i : Nat) (f g : α → α) (h : ∀ a, f a = g a) :
    listModify l i f = listModify l i g := by
  induction l generalizing i with
  | nil => rfl
  | cons x xs ih => cases i <;> simp [listModify, h, ih]

theorem forall_of_map_eq {l₁ l₂ : List α} {p : α → β} (h : l₂.map p = l₁.map p)
    {P : β → Prop} (h1 : ∀ a ∈ l₁, P (p a)) : ∀ a ∈ l₂, P (p a) := by
  intro a ha
  have hm : p a ∈ l₂.map p := List.mem_map_of_mem _ ha
  rw [h] at hm
  obtain ⟨b, hb, hpb⟩ := List.mem_map.1 hm
  rw [← hpb]
  exact h1 b hb

/-! ### Stats algebra -/

theorem statsAddSpec_zero_right (a : Stats) : statsAddSpec a {} = a := by
  cases a
  simp [statsAddSpec]

theorem statsAddSpec_assoc (a b c : Stats) :
    statsAddSpec (statsAddSpec a b) c = statsAddSpec a (statsAddSpec b c) := by
  simp [statsAddSpec, Nat.add_assoc]

theorem statsSum_nil : statsSum [] = {} := rfl

theorem statsSum_cons (x : Stats) (l : List Stats) :
    statsSum (x :: l) = statsAddSpec x (statsSum l) := rfl

theorem statsSum_snoc (l : List Stats) (x : Stats) :
    statsSum (l ++ [x]) = statsAddSpec (statsSum l) x := by
  induction l with
  | nil =>
      show statsAddSpec x {} = statsAddSpec {} x
      cases x
      simp [statsAddSpec]
  | cons y ys ih => simp [statsSum_cons, ih, statsAddSpec_assoc]

theorem aggregate_eq_addSpec (a b : Stats) (h : b.num_skipped = 0) :
    suselog_stats_aggregate a b = statsAddSpec a b := by
  cases a
  cases b
  simp_all [suselog_stats_aggregate, statsAddSpec]

theorem stats_update_num_skipped (s : Stats) (st : Status) :
    (suselog_stats_update s st).num_skipped = s.num_skipped := by
  cases st <;> rfl

/-! ### Injectivity of the decimal rendering `Nat.repr` -/

/-- Decimal decoding step: `decStep a c` treats `c` as the next (more
significant to less significant) digit after the prefix value `a`. -/
def decStep (a : Nat) (c : Char) : Nat := 10 * a + (c.toNat - 48)

theorem decStep_digitChar (a : Nat) {d : Nat} (h : d < 10) :
    decStep a (Nat.digitChar d) = 10 * a + d := by
  interval_cases d <;> rfl

theorem foldl_toDigitsCore (n : Nat) : ∀ (fuel : Nat) (acc : List Char), n < fuel →
    (Nat.toDigitsCore 10 fuel n acc).foldl decStep 0 = acc.foldl decStep n := by
  induction n using Nat.strong_induction_on with
  | _ n ih =>
      intro fuel acc hlt
      match fuel with
      | fuel + 1 =>
          rw [Nat.toDigitsCore]
          by_cases h0 : n / 10 = 0
          · have hn10 : n < 10 := by omega
            simp only [h0, if_pos]
            have : List.foldl decStep 0 (Nat.digitChar (n % 10) :: acc)
                = List.foldl decStep (decStep 0 (Nat.digitChar (n % 10))) acc := rfl
            rw [this, decStep_digitChar 0 (Nat.mod_lt _ (by omega)), Nat.mod_eq_of_lt hn10,
              Nat.mul_zero, Nat.zero_add]
          · simp only [h0, if_neg, if_false]
            have hpos : 0 < n := by
              rcases Nat.eq_zero_or_pos n with h | h
              · exact absurd (by simp [h]) h0
              · exact h
            have hdiv : n / 10 < n := Nat.div_lt_self hpos (by omega)
            have hfuel : n / 10 < fuel := by omega
            rw [ih (n / 10) hdiv fuel (Nat.digitChar (n % 10) :: acc) hfuel]
            have : List.foldl decStep (n / 10) (Nat.digitChar (n % 10) :: acc)
                = List.foldl decStep (decStep (n / 10) (Nat.digitChar (n % 10))) acc := rfl
            rw [this, decStep_digitChar (n / 10) (Nat.mod_lt _ (by omega)), Nat.div_add_mod]

theorem foldl_toDigits (n : Nat) : (Nat.toDigits 10 n).foldl decStep 0 = n := by
  rw [Nat.toDigits, foldl_toDigitsCore n (n + 1) [] (Nat.lt_succ_self n)]
  rfl

theorem natRepr_injective : Function.Injective Nat.repr := by
  intro a b h
  have hdata : Nat.toDigits 10 a = Nat.toDigits 10 b := by
    have := congrArg String.data h
    simpa [Nat.repr, List.asString] using this
  have := congrArg (fun l => List.foldl decStep 0 l) hdata
  simpa [foldl_toDigits] using this

theorem string_data_append (a b : String) : (a ++ b).data = a.data ++ b.data := rfl

theorem string_append_left_cancel {a b c : String} (h : a ++ b = a ++ c) : b = c := by
  have hd : a.data ++ b.data = a.data ++ c.data := by
    have := congrArg String.data h
    simpa [string_data_append] using this
  have : b.data = c.data := List.append_cancel_left hd
  cases b; cases c; simp_all

/-! ### Characterizations of the journal operations -/

theorem test_finish_of_none (j : Journal) (s : Status) (now : Nat) (h : j.curTest = none) :
    suselog_test_finish j s now = j := by
  simp [suselog_test_finish, h]

theorem test_finish_of_invalid (j : Journal) {gi ti : Nat} (s : Status) (now : Nat)
    (hcur : j.curTest = some (gi, ti)) (hget : j.getTest gi ti = none) :
    suselog_test_finish j s now = j := by
  simp [suselog_test_finish, hcur, hget]

theorem test_finish_conflict (j : Journal) {gi ti : Nat} {t : Test} (s : Status) (now : Nat)
    (hcur : j.curTest = some (gi, ti)) (hget : j.getTest gi ti = some t)
    (hr : t.status ≠ .running) (hd : t.status ≠ s) :
    suselog_test_finish j s now =
      j.modifyTest gi ti fun t' => __suselog_test_log_extra t' .warning (conflictMsg t.status s) := by
  simp [suselog_test_finish, hcur, hget, hr, hd, __suselog_vlogmsg]

theorem test_finish_refinish (j : Journal) {gi ti : Nat} {t : Test} (s : Status) (now : Nat)
    (hcur : j.curTest = some (gi, ti)) (hget : j.getTest gi ti = some t)
    (hr : t.status ≠ .running) (hs : t.status = s) :
    suselog_test_finish j s now =
      (j.modifyTest gi ti fun t' => { t' with duration := now - t'.timestamp }).modifyTest gi ti
        fun t' => { t' with status := s } := by
  have hcond : ¬(t.status ≠ .running ∧ t.status ≠ s) := by simp [hs]
  simp only [suselog_test_finish, hcur, hget, hcond, if_false]
  have hns : ¬t.status = Status.running := hr
  simp only [hns, if_false]

theorem test_finish_running (j : Journal) {gi ti : Nat} {t : Test} (s : Status) (now : Nat)
    (hcur : j.curTest = some (gi, ti)) (hget : j.getTest gi ti = some t)
    (hr : t.status = .running) :
    suselog_test_finish j s now =
      (match j.curGroup with
       | some cg =>
           (j.modifyTest gi ti fun t' => { t' with duration := now - t'.timestamp }).modifyGroup cg
             fun g => { g with stats := suselog_stats_update g.stats s }
       | none => j.modifyTest gi ti fun t' => { t' with duration := now - t'.timestamp
           }).modifyTest gi ti fun t' => { t' with status := s } := by
  have hcond : ¬(t.status ≠ .running ∧ t.status ≠ s) := by simp [hr]
  simp only [suselog_test_finish, hcur, hget]
  rw [if_neg hcond, if_pos hr]
  rfl

/-- The fields of a journal that `suselog_test_finish` and `__suselog_vlogmsg`
never change. -/
structure SameShape (j j' : Journal) : Prop where
  curGroup : j'.curGroup = j.curGroup
  curTest : j'.curTest = j.curTest
  jstats : j'.stats = j.stats
  jname : j'.name = j.name
  autonameIndex : j'.autonameIndex = j.autonameIndex
  hostname : j'.hostname = j.hostname
  maxNameLevel : j'.max_name_level = j.max_name_level
  numGroups : j'.num_groups = j.num_groups
  timestamp : j'.timestamp = j.timestamp
  groupNames : j'.groups.map Group.name = j.groups.map Group.name
  testNames : j'.groups.map (fun g => g.tests.map Test.name)
      = j.groups.map (fun g => g.tests.map Test.name)

theorem SameShape.refl (j : Journal) : SameShape j j :=
  ⟨rfl, rfl, rfl, rfl, rfl, rfl, rfl, rfl, rfl, rfl, rfl⟩

theorem sameShape_modifyTest (j : Journal) (gi ti : Nat) (f : Test → Test)
    (hn : ∀ t, (f t).name = t.name) : SameShape j (j.modifyTest gi ti f) := by
  refine ⟨rfl, rfl, rfl, rfl, rfl, rfl, rfl, rfl, rfl, ?_, ?_⟩
  · exact listModify_map_eq _ _ _ _ fun g => rfl
  · exact listModify_map_eq _ _ _ _ fun g => by simp [listModify_map_eq _ _ _ _ fun t => hn t]

theorem sameShape_modifyGroup (j : Journal) (gi : Nat) (f : Group → Group)
    (hn : ∀ g, (f g).name = g.name) (ht : ∀ g, (f g).tests = g.tests) :
    SameShape j (j.modifyGroup gi f) := by
  refine ⟨rfl, rfl, rfl, rfl, rfl, rfl, rfl, rfl, rfl, ?_, ?_⟩
  · exact listModify_map_eq _ _ _ _ fun g => hn g
  · exact listModify_map_eq _ _ _ _ fun g => by rw [ht g]

theorem SameShape.trans {j j' j'' : Journal} (h1 : SameShape j j') (h2 : SameShape j' j'') :
    SameShape j j'' := by
  refine ⟨?_, ?_, ?_, ?_, ?_, ?_, ?_, ?_, ?_, ?_, ?_⟩ <;>
    simp [h1.curGroup, h1.curTest, h1.jstats, h1.jname, h1.autonameIndex, h1.hostname,
      h1.maxNameLevel, h1.numGroups, h1.timestamp, h1.groupNames, h1.testNames,
      h2.curGroup, h2.curTest, h2.jstats, h2.jname, h2.autonameIndex, h2.hostname,
      h2.maxNameLevel, h2.numGroups, h2.timestamp, h2.groupNames, h2.testNames]

theorem sameShape_vlogmsg (j : Journal) (sev : Severity) (msg : String) :
    SameShape j (__suselog_vlogmsg j sev msg) := by
  unfold __suselog_vlogmsg
  match h : j.curTest with
  | none => exact SameShape.refl j
  | some (gi, ti) => exact sameShape_modifyTest j gi ti _ fun t => rfl

theorem sameShape_test_finish (j : Journal) (s : Status) (now : Nat) :
    SameShape j (suselog_test_finish j s now) := by
  match hcur : j.curTest with
  | none => rw [test_finish_of_none j s now hcur]; exact SameShape.refl j
  | some (gi, ti) =>
      match hget : j.getTest gi ti with
      | none => rw [test_finish_of_invalid j s now hcur hget]; exact SameShape.refl j
      | some t =>
          by_cases hr : t.status = .running
          · rw [test_finish_running j s now hcur hget hr]
            cases hcg : j.curGroup with
            | none =>
                dsimp only
                refine SameShape.trans (sameShape_modifyTest _ _ _ _ ?_)
                  (sameShape_modifyTest _ _ _ _ ?_) <;> intro t' <;> rfl
            | some cg =>
                dsimp only
                refine SameShape.trans
                  (SameShape.trans (sameShape_modifyTest _ _ _ _ ?_)
                    (sameShape_modifyGroup _ _ _ ?_ ?_))
                  (sameShape_modifyTest _ _ _ _ ?_) <;> intro x <;> rfl
          · by_cases hs : t.status = s
            · rw [test_finish_refinish j s now hcur hget hr hs]
              refine SameShape.trans (sameShape_modifyTest _ _ _ _ ?_)
                (sameShape_modifyTest _ _ _ _ ?_) <;> intro x <;> rfl
            · rw [test_finish_conflict j s now hcur hget hr hs]
              refine sameShape_modifyTest _ _ _ _ ?_
              intro x
              rfl

theorem group_begin_none_eq (j : Journal) (d : Option String) (now : Nat) :
    suselog_group_begin j none d now =
      (let j1 := suselog_group_finish j now
       { j1 with
         autonameIndex := (j1.autonameIndex + 1) % 2 ^ 32
         num_groups := j1.num_groups + 1
         groups := j1.groups ++
           [{ name := j1.name ++ "." ++ ("group" ++ Nat.repr j1.autonameIndex),
              description := d, timestamp := now, hostname := j1.hostname,
              id := j1.num_groups }]
         curGroup := some j1.groups.length
         curTest := none }) := rfl

theorem group_begin_some_eq (j : Journal) (n : String) (d : Option String) (now : Nat) :
    suselog_group_begin j (some n) d now =
      (let j1 := suselog_group_finish j now
       { j1 with
         num_groups := j1.num_groups + 1
         groups := j1.groups ++
           [{ name := j1.name ++ "." ++ n, description := d, timestamp := now,
              hostname := j1.hostname, id := j1.num_groups }]
         curGroup := some j1.groups.length
         curTest := none }) := rfl

/-- The journal fields `groupFinishCore` leaves untouched (everything except the
journal stats, the group durations and the current-group pointer, which it
clears). -/
theorem groupFinishCore_preserves (j1 : Journal) (now : Nat) :
    (groupFinishCore j1 now).curGroup = none ∧
    (groupFinishCore j1 now).curTest = j1.curTest ∧
    (groupFinishCore j1 now).name = j1.name ∧
    (groupFinishCore j1 now).autonameIndex = j1.autonameIndex ∧
    (groupFinishCore j1 now).hostname = j1.hostname ∧
    (groupFinishCore j1 now).max_name_level = j1.max_name_level ∧
    (groupFinishCore j1 now).num_groups = j1.num_groups ∧
    (groupFinishCore j1 now).timestamp = j1.timestamp ∧
    (groupFinishCore j1 now).groups.map Group.name = j1.groups.map Group.name ∧
    (groupFinishCore j1 now).groups.map (fun g => g.tests.map Test.name)
      = j1.groups.map (fun g => g.tests.map Test.name) ∧
    (groupFinishCore j1 now).groups.length = j1.groups.length := by
  unfold groupFinishCore
  cases hcg : j1.curGroup with
  | none => exact ⟨rfl, rfl, rfl, rfl, rfl, rfl, rfl, rfl, rfl, rfl, rfl⟩
  | some gi =>
      dsimp only
      cases hg : j1.getGroup gi with
      | none => exact ⟨rfl, rfl, rfl, rfl, rfl, rfl, rfl, rfl, rfl, rfl, rfl⟩
      | some g =>
          dsimp only
          refine ⟨rfl, rfl, rfl, rfl, rfl, rfl, rfl, rfl, ?_, ?_, ?_⟩
          · exact listModify_map_eq _ _ _ _ fun g' => rfl
          · exact listModify_map_eq _ _ _ _ fun g' => rfl
          · exact listModify_length _ _ _

/-- The journal fields `suselog_group_finish` leaves untouched. -/
theorem group_finish_preserves (j : Journal) (now : Nat) :
    (suselog_group_finish j now).curGroup = none ∧
    (suselog_group_finish j now).curTest = j.curTest ∧
    (suselog_group_finish j now).name = j.name ∧
    (suselog_group_finish j now).autonameIndex = j.autonameIndex ∧
    (suselog_group_finish j now).hostname = j.hostname ∧
    (suselog_group_finish j now).max_name_level = j.max_name_level ∧
    (suselog_group_finish j now).num_groups = j.num_groups ∧
    (suselog_group_finish j now).timestamp = j.timestamp ∧
    (suselog_group_finish j now).groups.map Group.name = j.groups.map Group.name ∧
    (suselog_group_finish j now).groups.map (fun g => g.tests.map Test.name)
      = j.groups.map (fun g => g.tests.map Test.name) ∧
    (suselog_group_finish j now).groups.length = j.groups.length := by
  unfold suselog_group_finish
  have hshape : SameShape j (if __suselog_test_running j then suselog_test_finish j .success now
      else j) := by
    split
    · exact sameShape_test_finish j .success now
    · exact SameShape.refl j
  obtain ⟨p1, p2, p3, p4, p5, p6, p7, p8, p9, p10, p11⟩ :=
    groupFinishCore_preserves (if __suselog_test_running j then suselog_test_finish j .success now
      else j) now
  have hlen : ∀ j' j'' : Journal,
      j'.groups.map Group.name = j''.groups.map Group.name →
        j'.groups.length = j''.groups.length := by
    intro j' j'' hmap
    have := congrArg List.length hmap
    simpa using this
  exact ⟨p1, p2.trans hshape.curTest, p3.trans hshape.jname, p4.trans hshape.autonameIndex,
    p5.trans hshape.hostname, p6.trans hshape.maxNameLevel, p7.trans hshape.numGroups,
    p8.trans hshape.timestamp, p9.trans hshape.groupNames, p10.trans hshape.testNames,
    p11.trans (hlen _ _ hshape.groupNames)⟩

/-! ### The stats roll-up invariant -/

theorem forall_mem_listModify {l : List α} {P : α → Prop} (i : Nat) (f : α → α)
    (h1 : ∀ a ∈ l, P a) (h2 : ∀ a ∈ l, P (f a)) : ∀ a ∈ listModify l i f, P a := by
  induction l generalizing i with
  | nil => intro a ha; cases ha
  | cons x xs ih =>
      have h1x : P x := h1 x (List.mem_cons_self x xs)
      have h2x : P (f x) := h2 x (List.mem_cons_self x xs)
      have h1' : ∀ a ∈ xs, P a := fun a ha => h1 a (List.mem_cons_of_mem _ ha)
      have h2' : ∀ a ∈ xs, P (f a) := fun a ha => h2 a (List.mem_cons_of_mem _ ha)
      cases i with
      | zero =>
          intro a ha
          rcases List.mem_cons.mp ha with h | h
          · rw [h]; exact h2x
          · exact h1' a h
      | succ n =>
          intro a ha
          rcases List.mem_cons.mp ha with h | h
          · rw [h]; exact h1x
          · exact ih n h1' h2' a h

/-- Between calls, the journal's own stats are exactly the element-wise sum of
the stats of the groups that have already been finished — all groups except the
current one, which is always the last of the sequence.  Every group's
`num_skipped` counter is 0 (nothing in suselog.c ever increments it), which is
what lets the six-counter `suselog_stats_aggregate` act as the full element-wise
sum. -/
def JInv (j : Journal) : Prop :=
  (∀ s ∈ j.groups.map Group.stats, s.num_skipped = 0) ∧
  (j.curGroup = none → j.stats = statsSum (j.groups.map Group.stats)) ∧
  (∀ i, j.curGroup = some i → i + 1 = (j.groups.map Group.stats).length ∧
      j.stats = statsSum ((j.groups.map Group.stats).take i))

theorem JInv_transport {j j' : Journal} (h1 : j'.curGroup = j.curGroup)
    (h2 : j'.stats = j.stats) (h3 : j'.groups.map Group.stats = j.groups.map Group.stats)
    (h : JInv j) : JInv j' := by
  obtain ⟨hz, hn, hs⟩ := h
  refine ⟨?_, ?_, ?_⟩
  · rw [h3]; exact hz
  · intro hcn; rw [h2, h3]; exact hn (h1 ▸ hcn)
  · intro i hci
    rw [h2, h3]
    exact hs i (h1 ▸ hci)

theorem modifyTest_map_stats (j : Journal) (gi ti : Nat) (f : Test → Test) :
    (j.modifyTest gi ti f).groups.map Group.stats = j.groups.map Group.stats :=
  listModify_map_eq _ _ _ _ fun g => rfl

theorem modifyGroup_map_stats_update (j : Journal) (cg : Nat) (s : Status) :
    ((j.modifyGroup cg fun g =>
        { g with stats := suselog_stats_update g.stats s }).groups.map Group.stats)
      = listModify (j.groups.map Group.stats) cg fun st => suselog_stats_update st s :=
  listModify_map_comm _ _ _ _ _ fun g => rfl

theorem JInv_vlogmsg (j : Journal) (sev : Severity) (msg : String) (h : JInv j) :
    JInv (__suselog_vlogmsg j sev msg) := by
  unfold __suselog_vlogmsg
  cases hct : j.curTest with
  | none => exact h
  | some p =>
      obtain ⟨gi, ti⟩ := p
      exact @JInv_transport j _ rfl rfl (modifyTest_map_stats j gi ti _) h

theorem JInv_test_finish (j : Journal) (s : Status) (now : Nat) (h : JInv j) :
    JInv (suselog_test_finish j s now) := by
  cases hct : j.curTest with
  | none => rw [test_finish_of_none _ _ _ hct]; exact h
  | some p =>
      obtain ⟨gi, ti⟩ := p
      cases hgt : j.getTest gi ti with
      | none => rw [test_finish_of_invalid _ _ _ hct hgt]; exact h
      | some t =>
          by_cases hr : t.status = .running
          · rw [test_finish_running _ _ _ hct hgt hr]
            cases hcg : j.curGroup with
            | none =>
                dsimp only
                exact @JInv_transport j _ rfl rfl
                  ((modifyTest_map_stats _ gi ti _).trans (modifyTest_map_stats j gi ti _)) h
            | some cg =>
                dsimp only
                obtain ⟨hz, hn, hsome⟩ := h
                obtain ⟨hlen, hsum⟩ := hsome cg hcg
                have hmap :
                    ((((j.modifyTest gi ti fun t' =>
                            { t' with duration := now - t'.timestamp }).modifyGroup cg fun g =>
                          { g with stats := suselog_stats_update g.stats s }).modifyTest gi ti
                        fun t' => { t' with status := s }).groups.map Group.stats)
                      = listModify (j.groups.map Group.stats) cg
                          (fun st => suselog_stats_update st s) := by
                  rw [modifyTest_map_stats, modifyGroup_map_stats_update,
                    modifyTest_map_stats]
                refine ⟨?_, ?_, ?_⟩
                · rw [hmap]
                  refine forall_mem_listModify cg _ hz fun a ha => ?_
                  rw [stats_update_num_skipped]
                  exact hz a ha
                · intro hcn
                  have hcn' : j.curGroup = none := hcn
                  rw [hcg] at hcn'
                  cases hcn'
                · intro i hci
                  have hci' : j.curGroup = some i := hci
                  rw [hcg] at hci'
                  injection hci' with hh
                  subst hh
                  refine ⟨?_, ?_⟩
                  · rw [hmap, listModify_length]
                    exact hlen
                  · rw [hmap, listModify_take]
                    exact hsum
          · by_cases hs : t.status = s
            · rw [test_finish_refinish _ _ _ hct hgt hr hs]
              exact @JInv_transport j _ rfl rfl
                ((modifyTest_map_stats _ gi ti _).trans (modifyTest_map_stats j gi ti _)) h
            · rw [test_finish_conflict _ _ _ hct hgt hr hs]
              exact @JInv_transport j _ rfl rfl (modifyTest_map_stats j gi ti _) h

theorem JInv_clearCurGroup (j : Journal)
    (h0 : j.stats = statsSum (j.groups.map Group.stats))
    (hz : ∀ s ∈ j.groups.map Group.stats, s.num_skipped = 0) :
    JInv { j with curGroup := none } :=
  ⟨hz, fun _ => h0, fun _ hi => by cases hi⟩

theorem JInv_groupFinishCore (j1 : Journal) (now : Nat) (h : JInv j1) :
    JInv (groupFinishCore j1 now) := by
  obtain ⟨hz, hn, hsome⟩ := h
  unfold groupFinishCore
  cases hcg : j1.curGroup with
  | none =>
      dsimp only
      exact JInv_clearCurGroup j1 (hn hcg) hz
  | some gi =>
      dsimp only
      obtain ⟨hlen, hsum⟩ := hsome gi hcg
      cases hg : j1.getGroup gi with
      | none =>
          exfalso
          have hlt : gi < j1.groups.length := by
            have : (j1.groups.map Group.stats).length = j1.groups.length := by simp
            omega
          have hx := List.getElem?_eq_getElem hlt
          rw [Journal.getGroup] at hg
          rw [hg] at hx
          cases hx
      | some g =>
          dsimp only
          have hmapd :
              ((({ j1 with stats := suselog_stats_aggregate j1.stats g.stats }).modifyGroup gi
                  fun g' => { g' with duration := now - g'.timestamp }).groups.map Group.stats)
                = j1.groups.map Group.stats :=
            listModify_map_eq _ _ _ _ fun g' => rfl
          have hgets : (j1.groups.map Group.stats)[gi]? = some g.stats := by
            rw [List.getElem?_map]
            rw [Journal.getGroup] at hg
            rw [hg]
            rfl
          have hmem : g.stats ∈ j1.groups.map Group.stats :=
            List.mem_iff_getElem?.mpr ⟨gi, hgets⟩
          have hskip : g.stats.num_skipped = 0 := hz _ hmem
          have hagg : suselog_stats_aggregate j1.stats g.stats
              = statsSum (j1.groups.map Group.stats) := by
            rw [aggregate_eq_addSpec _ _ hskip, hsum]
            rw [← statsSum_snoc]
            have hx : (j1.groups.map Group.stats).take gi ++ [g.stats]
                = (j1.groups.map Group.stats).take (gi + 1) := by
              rw [List.take_succ, hgets]
              rfl
            rw [hx, hlen, List.take_length]
          exact JInv_clearCurGroup
            (({ j1 with stats := suselog_stats_aggregate j1.stats g.stats }).modifyGroup gi
              fun g' => { g' with duration := now - g'.timestamp })
            (by rw [hmapd]; exact hagg) (by rw [hmapd]; exact hz)

theorem JInv_group_finish (j : Journal) (now : Nat) (h : JInv j) :
    JInv (suselog_group_finish j now) := by
  unfold suselog_group_finish
  refine JInv_groupFinishCore _ _ ?_
  split
  · exact JInv_test_finish _ _ _ h
  · exact h

theorem JInv_appendGroup (j1 : Journal) (gnew : Group) (hskip : gnew.stats.num_skipped = 0)
    (h1 : JInv j1) (hcg : j1.curGroup = none) (ai ng : Nat) :
    JInv { j1 with
           autonameIndex := ai
           num_groups := ng
           groups := j1.groups ++ [gnew]
           curGroup := some j1.groups.length
           curTest := none } := by
  obtain ⟨hz, hn, _⟩ := h1
  refine ⟨?_, ?_, ?_⟩
  · intro s hs
    rw [List.map_append] at hs
    rcases List.mem_append.mp hs with hmem | hmem
    · exact hz s hmem
    · rcases List.mem_singleton.mp hmem with rfl
      exact hskip
  · intro hcn
    exact Option.noConfusion hcn
  · intro i hi
    injection hi with hh
    subst hh
    constructor
    · simp
    · have hx : ((j1.groups ++ [gnew]).map Group.stats).take j1.groups.length
          = j1.groups.map Group.stats := by
        rw [List.map_append]
        have hl : j1.groups.length = (j1.groups.map Group.stats).length := by simp
        rw [hl, List.take_left]
      rw [hx]
      exact hn hcg

theorem JInv_group_begin (j : Journal) (n d : Option String) (now : Nat) (h : JInv j) :
    JInv (suselog_group_begin j n d now) := by
  have h1 : JInv (suselog_group_finish j now) := JInv_group_finish j now h
  have hcg : (suselog_group_finish j now).curGroup = none := (group_finish_preserves j now).1
  cases n with
  | none =>
      rw [group_begin_none_eq]
      refine JInv_appendGroup _ _ ?_ h1 hcg _ _
      rfl
  | some nm =>
      rw [group_begin_some_eq]
      refine JInv_appendGroup _ _ ?_ h1 hcg (suselog_group_finish j now).autonameIndex _
      rfl

/-- `JInv` does not mention the current-test pointer. -/
theorem JInv_setCurTest (j : Journal) (p : Option (Nat × Nat)) (h : JInv j) :
    JInv { j with curTest := p } := by
  obtain ⟨hz, hn, hsome⟩ := h
  exact ⟨hz, hn, hsome⟩

theorem JInv_testBeginCore (j2 : Journal) (n d : Option String) (now : Nat) (h : JInv j2) :
    JInv (testBeginCore j2 n d now) := by
  unfold testBeginCore
  cases hcg : j2.curGroup with
  | none => exact h
  | some gi =>
      dsimp only
      cases hg : j2.getGroup gi with
      | none => exact h
      | some g =>
          dsimp only
          obtain ⟨hz, hn, hsome⟩ := h
          obtain ⟨hlen, hsum⟩ := hsome gi hcg
          have hmap : ((j2.modifyGroup gi fun g' =>
              { g' with
                tests := g'.tests ++
                  [{ name := resolveTestName j2 g n, description := d, timestamp := now }],
                stats := { g'.stats with
                  num_tests := g'.stats.num_tests + 1 } }).groups.map Group.stats)
              = listModify (j2.groups.map Group.stats) gi
                  (fun st => { st with num_tests := st.num_tests + 1 }) :=
            listModify_map_comm _ _ _ _ _ fun g' => rfl
          have hj3 : JInv (j2.modifyGroup gi fun g' =>
              { g' with
                tests := g'.tests ++
                  [{ name := resolveTestName j2 g n, description := d, timestamp := now }],
                stats := { g'.stats with num_tests := g'.stats.num_tests + 1 } }) := by
            refine ⟨?_, ?_, ?_⟩
            · rw [hmap]
              exact forall_mem_listModify gi _ hz fun a ha => hz a ha
            · intro hcn
              have hcn' : j2.curGroup = none := hcn
              rw [hcg] at hcn'
              cases hcn'
            · intro i hi
              have hi' : j2.curGroup = some i := hi
              rw [hcg] at hi'
              injection hi' with hh
              subst hh
              refine ⟨?_, ?_⟩
              · rw [hmap, listModify_length]
                exact hlen
              · rw [hmap, listModify_take]
                exact hsum
          exact JInv_setCurTest _ _ hj3

theorem JInv_test_begin (j : Journal) (n d : Option String) (now : Nat) (h : JInv j) :
    JInv (suselog_test_begin j n d now) := by
  unfold suselog_test_begin
  have hj1 : JInv (match j.curGroup with
      | none => suselog_group_begin j none none now
      | some _ => j) := by
    cases j.curGroup
    · exact JInv_group_begin j none none now h
    · exact h
  refine JInv_testBeginCore _ _ _ _ ?_
  split
  · exact JInv_test_finish _ _ _ hj1
  · exact hj1

theorem JInv_applyOp (j : Journal) (op : Op) (h : JInv j) : JInv (applyOp j op) := by
  cases op with
  | beginGroup n d now => exact JInv_group_begin j n d now h
  | beginTest n d now => exact JInv_test_begin j n d now h
  | finishTest s now => exact JInv_test_finish j s now h
  | logMsg sev msg => exact JInv_vlogmsg j sev msg h

theorem JInv_runOps (j : Journal) (ops : List Op) (h : JInv j) : JInv (runOps j ops) := by
  induction ops generalizing j with
  | nil => exact h
  | cons op rest ih => exact ih _ (JInv_applyOp j op h)

theorem JInv_journal_new (n hn : String) (t0 : Nat) : JInv (suselog_journal_new n hn t0) := by
  refine ⟨?_, ?_, ?_⟩
  · intro s hs
    cases hs
  · intro _
    rfl
  · intro i hi
    cases hi

/-! ### Name bookkeeping -/

theorem running_false_of_curTest_none (j : Journal) (h : j.curTest = none) :
    __suselog_test_running j = false := by
  unfold __suselog_test_running
  rw [h]

theorem getGroup_name_of_mapNames {j j' : Journal}
    (h : j'.groups.map Group.name = j.groups.map Group.name) (gi : Nat) :
    (j'.getGroup gi).map Group.name = (j.getGroup gi).map Group.name := by
  rw [Journal.getGroup, Journal.getGroup, ← List.getElem?_map, h, List.getElem?_map]

theorem groups_length_of_mapNames {j j' : Journal}
    (h : j'.groups.map Group.name = j.groups.map Group.name) :
    j'.groups.length = j.groups.length := by
  have := congrArg List.length h
  simpa using this

theorem test_begin_some_stage (j : Journal) (n d : Option String) (now : Nat) {gi : Nat}
    (hcg : j.curGroup = some gi) :
    suselog_test_begin j n d now =
      testBeginCore (if __suselog_test_running j then suselog_test_finish j .success now else j)
        n d now := by
  unfold suselog_test_begin
  rw [hcg]

theorem test_begin_none_stage (j : Journal) (n d : Option String) (now : Nat)
    (hcg : j.curGroup = none) :
    suselog_test_begin j n d now =
      testBeginCore (suselog_group_begin j none none now) n d now := by
  unfold suselog_test_begin
  rw [hcg]
  dsimp only
  rw [running_false_of_curTest_none (suselog_group_begin j none none now) rfl]
  simp

/-- What `testBeginCore` does when the current-group pointer is a valid index:
the new test's name, the updated group, the updated current-test pointer, and
the untouched fields. -/
theorem testBeginCore_char (j2 : Journal) (n d : Option String) (now : Nat) {gi : Nat} {g : Group}
    (hcg : j2.curGroup = some gi) (hg : j2.getGroup gi = some g) :
    (testBeginCore j2 n d now).groups.map (fun gr => gr.tests.map Test.name)
      = listModify (j2.groups.map fun gr => gr.tests.map Test.name) gi
          (fun l => l ++ [resolveTestName j2 g n]) ∧
    (testBeginCore j2 n d now).curGroup = some gi ∧
    (testBeginCore j2 n d now).getGroup gi =
      some { g with
             tests := g.tests ++
               [{ name := resolveTestName j2 g n, description := d, timestamp := now }]
             stats := { g.stats with num_tests := g.stats.num_tests + 1 } } ∧
    (testBeginCore j2 n d now).curTest = some (gi, g.tests.length) ∧
    (testBeginCore j2 n d now).getTest gi g.tests.length =
      some { name := resolveTestName j2 g n, description := d, timestamp := now } ∧
    (testBeginCore j2 n d now).groups.map Group.name = j2.groups.map Group.name := by
  unfold testBeginCore
  rw [hcg]
  dsimp only
  rw [hg]
  dsimp only
  have hget : (listModify j2.groups gi fun g' =>
      { g' with
        tests := g'.tests ++
          [{ name := resolveTestName j2 g n, description := d, timestamp := now }]
        stats := { g'.stats with num_tests := g'.stats.num_tests + 1 } })[gi]?
      = some { g with
               tests := g.tests ++
                 [{ name := resolveTestName j2 g n, description := d, timestamp := now }]
               stats := { g.stats with num_tests := g.stats.num_tests + 1 } } := by
    rw [listModify_getElem?]
    rw [Journal.getGroup] at hg
    simp [hg]
  refine ⟨?_, hcg, ?_, rfl, ?_, ?_⟩
  · exact listModify_map_comm _ _ _ _ _ fun gr => by simp
  · show (listModify j2.groups gi _)[gi]? = _
    exact hget
  · show (listModify j2.groups gi _)[gi]?.bind _ = _
    rw [hget]
    show ((g.tests ++ [_])[g.tests.length]?) = _
    rw [List.getElem?_concat_length]
  · exact listModify_map_eq _ _ _ _ fun gr => rfl

/-- Effect of one anonymous `suselog_group_begin` on the group-name sequence,
the autoname counter and the journal name. -/
theorem group_begin_none_names (j : Journal) (d : Option String) (now : Nat) :
    (suselog_group_begin j none d now).groups.map Group.name
      = j.groups.map Group.name ++ [j.name ++ "." ++ ("group" ++ Nat.repr j.autonameIndex)] ∧
    (suselog_group_begin j none d now).autonameIndex = (j.autonameIndex + 1) % 2 ^ 32 ∧
    (suselog_group_begin j none d now).name = j.name ∧
    (suselog_group_begin j none d now).curGroup = some j.groups.length ∧
    (suselog_group_begin j none d now).groups.length = j.groups.length + 1 := by
  obtain ⟨_, _, p3, p4, _, _, _, _, p9, _, p11⟩ := group_finish_preserves j now
  rw [group_begin_none_eq]
  dsimp only
  refine ⟨?_, ?_, ?_, ?_, ?_⟩
  · rw [List.map_append, p9, p3, p4]
    rfl
  · show ((suselog_group_finish j now).autonameIndex + 1) % 2 ^ 32 = _
    rw [p4]
  · exact p3
  · show some (suselog_group_finish j now).groups.length = some j.groups.length
    rw [p11]
  · show ((suselog_group_finish j now).groups ++ _).length = j.groups.length + 1
    rw [List.length_append, p11]
    rfl

/-- After `N` anonymous `suselog_group_begin` calls the group-name sequence has
grown by the `N` next autonames, provided the 32-bit counter does not wrap. -/
theorem beginGroups_names (t0 : Nat) (d : Option String) :
    ∀ (N : Nat) (j : Journal), j.autonameIndex + N ≤ 2 ^ 32 →
      ((fun jj => suselog_group_begin jj none d t0)^[N] j).groups.map Group.name
        = j.groups.map Group.name ++
            (List.range' j.autonameIndex N).map
              (fun i => j.name ++ "." ++ ("group" ++ Nat.repr i)) := by
  intro N
  induction N with
  | zero =>
      intro j _
      simp
  | succ N ih =>
      intro j hle
      rw [Function.iterate_succ_apply]
      obtain ⟨hnames, hidx, hname, _, _⟩ := group_begin_none_names j d t0
      rcases Nat.lt_or_ge (j.autonameIndex + 1) (2 ^ 32) with hlt | hge
      · have hidx' : (suselog_group_begin j none d t0).autonameIndex = j.autonameIndex + 1 := by
          rw [hidx]
          exact Nat.mod_eq_of_lt hlt
        have hrec := ih (suselog_group_begin j none d t0) (by omega)
        rw [hrec, hidx', hname, hnames, List.range'_succ]
        simp
      · have hN : N = 0 := by omega
        subst hN
        rw [Function.iterate_zero_apply, hnames]
        simp [List.range']

/-- After `M` anonymous `suselog_test_begin` calls on a journal whose current
group is the (sole, valid) group at index 0 named `nm`, the test-name sequence
of that group has grown by `M` copies of the group's own name. -/
theorem beginTests_names (t0 : Nat) (d : Option String) :
    ∀ (M : Nat) (j : Journal) (nm : String), j.curGroup = some 0 →
      (j.getGroup 0).map Group.name = some nm →
      ((fun jj => suselog_test_begin jj none d t0)^[M] j).groups.map
          (fun g => g.tests.map Test.name)
        = listModify (j.groups.map fun g => g.tests.map Test.name) 0
            (fun l => l ++ List.replicate M nm) := by
  intro M
  induction M with
  | zero =>
      intro j nm _ _
      rw [Function.iterate_zero_apply]
      rw [listModify_congr _ _ _ (fun a => a) (by simp), listModify_id]
  | succ M ih =>
      intro j nm hcg hgn
      rw [Function.iterate_succ_apply]
      have hstage := test_begin_some_stage j none d t0 hcg
      have hshape : SameShape j
          (if __suselog_test_running j then suselog_test_finish j .success t0 else j) := by
        split
        · exact sameShape_test_finish j .success t0
        · exact SameShape.refl j
      have hcg2 : (if __suselog_test_running j then suselog_test_finish j .success t0
          else j).curGroup = some 0 := by
        rw [hshape.curGroup, hcg]
      have hgn2 : ((if __suselog_test_running j then suselog_test_finish j .success t0
          else j).getGroup 0).map Group.name = some nm := by
        rw [getGroup_name_of_mapNames hshape.groupNames 0, hgn]
      obtain ⟨g2, hg2⟩ : ∃ g2, (if __suselog_test_running j then suselog_test_finish j .success t0
          else j).getGroup 0 = some g2 := by
        cases hx : (if __suselog_test_running j then suselog_test_finish j .success t0
            else j).getGroup 0 with
        | none => rw [hx] at hgn2; cases hgn2
        | some g2 => exact ⟨g2, rfl⟩
      have hg2name : g2.name = nm := by
        rw [hg2] at hgn2
        simpa using hgn2
      obtain ⟨c1, c2, c3, _, _, _⟩ := testBeginCore_char
        (if __suselog_test_running j then suselog_test_finish j .success t0 else j) none d t0
        hcg2 hg2
      rw [hstage]
      have hgn' : ((testBeginCore (if __suselog_test_running j then suselog_test_finish j .success
          t0 else j) none d t0).getGroup 0).map Group.name = some nm := by
        rw [c3]
        simpa using hg2name
      have hrec := ih (testBeginCore (if __suselog_test_running j then suselog_test_finish j
        .success t0 else j) none d t0) nm c2 hgn'
      rw [hrec, c1, hshape.testNames]
      have hres : resolveTestName (if __suselog_test_running j then suselog_test_finish j .success
          t0 else j) g2 none = nm := hg2name
      rw [hres, listModify_listModify]
      refine listModify_congr _ _ _ _ fun l => ?_
      simp [List.replicate_succ]

theorem getTest_modifyTest (j : Journal) (gi ti : Nat) (f : Test → Test) :
    (j.modifyTest gi ti f).getTest gi ti = (j.getTest gi ti).map f := by
  unfold Journal.getTest Journal.modifyTest Journal.modifyGroup
  show (listModify j.groups gi _)[gi]?.bind _ = _
  rw [listModify_getElem?]
  simp only [if_pos rfl]
  cases hx : j.groups[gi]? with
  | none => rfl
  | some g =>
      show ((listModify g.tests ti f)[ti]?) = (g.tests[ti]?).map f
      rw [listModify_getElem?]
      simp

theorem string_foldl_append_data (l : List String) : ∀ (init : String),
    (l.foldl (fun r s => r ++ s) init).data = init.data ++ (l.map String.data).flatten := by
  induction l with
  | nil => intro init; simp
  | cons x xs ih =>
      intro init
      show (xs.foldl (fun r s => r ++ s) (init ++ x)).data = _
      rw [ih (init ++ x), string_data_append]
      simp [List.append_assoc]

theorem string_join_data (l : List String) :
    (String.join l).data = (l.map String.data).flatten := by
  show (l.foldl (fun r s => r ++ s) "").data = _
  rw [string_foldl_append_data]
  rfl

/-- Each rendered Info record occurs contiguously inside the rendered log. -/
theorem renderInfo_infix (l : List Info) (i : Info) (hi : i ∈ l) :
    (renderInfo i).data <:+: (renderInfoLog l).data := by
  rw [renderInfoLog, string_join_data]
  exact List.infix_of_mem_flatten
    (List.mem_map_of_mem _ (List.mem_map_of_mem _ hi))

/-! ### The claims -/

/-- Claim C1: the claim says `suselog_journal_merge` fails only when the file
cannot be read or has no readable root, and succeeds otherwise.  In the code the
local `found` counter is initialised to 0 and never incremented, so the final
`if (found) rv = 0;` is dead and the function returns the failure sentinel `-1`
unconditionally — even on the fully successful merge shown here, which does
splice the `testsuite` element into the group's merged document.  The intent
(return 0 on success) is clear from the dead `found` test, so this is a code
bug, not a spec error. -/
theorem claim_C1_merge_always_fails :
    suselog_journal_merge (some (.mk "" [.mk "testsuites" [.mk "testsuite" []]]))
      = (-1, some [.mk "testsuite" []]) ∧
    ∀ doc, (suselog_journal_merge doc).1 = -1 :=
  ⟨rfl, fun doc => by cases doc <;> rfl⟩

/-- Claim C4: the claim says the testsuite timestamp renders the local civil
time as `YYYY-MM-DDTHH:MM:SS`, January's month field being `01`.  The code
formats `tm->tm_mon` without the `+ 1` that the 0-based `localtime` contract
requires (its own comment claims ISO8601), so an instant whose local time is
2020-01-15 12:34:56 renders as month `00`.  The no-timezone/no-sub-second part
of the claim is visible in both renderings. -/
theorem claim_C4_month_bug :
    __suselog_junit_timestamp ⟨120, 0, 15, 12, 34, 56⟩ = "2020-00-15T12:34:56" ∧
    junitTimestampSpec ⟨120, 0, 15, 12, 34, 56⟩ = "2020-01-15T12:34:56" ∧
    __suselog_junit_timestamp ⟨120, 0, 15, 12, 34, 56⟩
      ≠ junitTimestampSpec ⟨120, 0, 15, 12, 34, 56⟩ :=
  ⟨rfl, rfl, by decide⟩

/-- Claim C5 (counterexample): `suselog_stats_aggregate` is not the element-wise
sum of all seven counters — a child with `num_skipped = 1` contributes nothing
to the parent. -/
theorem claim_C5_counterexample :
    suselog_stats_aggregate {} { num_skipped := 1 } ≠ statsAddSpec {} { num_skipped := 1 } := by
  decide

/-- Claim C5 (amended): Stats consists of seven non-negative counters (as the
public header declares them; the internal header carries a stale six-field copy
of the struct), and `aggregate(parent, child)` adds six of the seven counters
(tests, succeeded, failed, errors, warnings, disabled) element-wise into the
parent, leaving the parent's `num_skipped` — and, the child being read-only,
the child itself — unchanged. -/
theorem claim_C5_amended (p c : Stats) :
    suselog_stats_aggregate p c = { statsAddSpec p c with num_skipped := p.num_skipped } :=
  rfl

/-- Claim C6 (counterexample): finishing an already-SUCCESS test as FAILURE does
not leave the test's message log unchanged — the WARNING diagnostic is appended
to that very test's Info log (it grows from `[]` to one WARNING record). -/
theorem claim_C6_counterexample :
    ((suselog_test_finish (suselog_test_begin (suselog_journal_new "j" "h" 0) none none 0)
        .success 1).getTest 0 0).map (fun t => t.extra_info) = some [] ∧
    ((suselog_test_finish (suselog_test_finish (suselog_test_begin
        (suselog_journal_new "j" "h" 0) none none 0) .success 1) .failure 2).getTest 0
          0).map (fun t => t.extra_info)
      = some [⟨.warning, "conflicting test stati - 1 vs 2"⟩] :=
  ⟨rfl, rfl⟩

/-- Claim C6 (amended): for a current test whose status is already terminal,
finishing with a different terminal status leaves the test's status and
duration and every group's Stats unchanged, and its sole effect is to append
exactly one WARNING diagnostic record (the formatted conflict message) to the
current test's message log. -/
theorem claim_C6_amended (j : Journal) (gi ti : Nat) (t : Test) (s : Status) (now : Nat)
    (hcur : j.curTest = some (gi, ti)) (hget : j.getTest gi ti = some t)
    (hterm : t.status ≠ .running) (hdiff : t.status ≠ s) :
    suselog_test_finish j s now =
      j.modifyTest gi ti (fun t' =>
        { t' with extra_info := t'.extra_info ++ [⟨.warning, conflictMsg t.status s⟩] }) ∧
    (suselog_test_finish j s now).groups.map Group.stats = j.groups.map Group.stats ∧
    (suselog_test_finish j s now).getTest gi ti =
      some { t with extra_info := t.extra_info ++ [⟨.warning, conflictMsg t.status s⟩] } := by
  have h1 : suselog_test_finish j s now =
      j.modifyTest gi ti (fun t' =>
        { t' with extra_info := t'.extra_info ++ [⟨.warning, conflictMsg t.status s⟩] }) :=
    test_finish_conflict j s now hcur hget hterm hdiff
  refine ⟨h1, ?_, ?_⟩
  · rw [h1, modifyTest_map_stats]
  · rw [h1, getTest_modifyTest, hget]
    rfl

/-- Claim C6 (witness): the amended claim at the concrete journal of the
counterexample run. -/
theorem claim_C6_witness :
    suselog_test_finish (suselog_test_finish (suselog_test_begin
        (suselog_journal_new "j" "h" 0) none none 0) .success 1) .failure 2 =
      (suselog_test_finish (suselog_test_begin (suselog_journal_new "j" "h" 0) none none 0)
          .success 1).modifyTest 0 0 (fun t' =>
        { t' with extra_info := t'.extra_info ++
            [⟨.warning, conflictMsg Status.success Status.failure⟩] }) :=
  (claim_C6_amended
    (suselog_test_finish (suselog_test_begin (suselog_journal_new "j" "h" 0) none none 0)
      .success 1) 0 0
    { name := "j" ++ "." ++ ("group" ++ Nat.repr 0), description := none, timestamp := 0,
      duration := 1, status := .success, extra_info := [] }
    .failure 2 rfl rfl (by decide) (by decide)).1

/-- Claim C7: for a current test whose status is already terminal, finishing
again with the same terminal status recomputes the test's duration from its
creation timestamp but leaves its status and every group's Stats counters (and
the journal's Stats) unchanged — each status counter is incremented only when
the status first leaves RUNNING. -/
theorem claim_C7_refinish_idempotent (j : Journal) (gi ti : Nat) (t : Test) (s : Status)
    (now : Nat) (hcur : j.curTest = some (gi, ti)) (hget : j.getTest gi ti = some t)
    (hterm : t.status ≠ .running) (hsame : t.status = s) :
    (suselog_test_finish j s now).groups.map Group.stats = j.groups.map Group.stats ∧
    (suselog_test_finish j s now).stats = j.stats ∧
    (suselog_test_finish j s now).getTest gi ti =
      some { t with duration := now - t.timestamp, status := s } := by
  have h1 := test_finish_refinish j s now hcur hget hterm hsame
  refine ⟨?_, ?_, ?_⟩
  · rw [h1, modifyTest_map_stats, modifyTest_map_stats]
  · rw [h1]
    rfl
  · rw [h1, getTest_modifyTest, getTest_modifyTest, hget]
    rfl

/-- Claim C7 (witness): re-finishing the already-successful test at a later
instant updates only its duration. -/
theorem claim_C7_witness :
    (suselog_test_finish (suselog_test_finish (suselog_test_begin
        (suselog_journal_new "j" "h" 0) none none 0) .success 1) .success 9).getTest 0 0 =
      some { name := "j" ++ "." ++ ("group" ++ Nat.repr 0), description := none, timestamp := 0,
             duration := 9, status := .success, extra_info := [] } :=
  (claim_C7_refinish_idempotent
    (suselog_test_finish (suselog_test_begin (suselog_journal_new "j" "h" 0) none none 0)
      .success 1) 0 0
    { name := "j" ++ "." ++ ("group" ++ Nat.repr 0), description := none, timestamp := 0,
      duration := 1, status := .success, extra_info := [] }
    .success 9 rfl rfl (by decide) rfl).2.2

/-- Claim C2 (counterexample): two tests begun with a NULL name inside one group
do not get the distinct autonames `test0`, `test1` — both get the owning group's
name `"j.group0"` (the group-level autoname generator with base `"test"` is
initialised but never consumed by `suselog_test_begin`). -/
theorem claim_C2_counterexample :
    ((suselog_test_begin (suselog_test_begin (suselog_journal_new "j" "h" 0) none none 0)
        none none 0).getTest 0 0).map Test.name = some "j.group0" ∧
    ((suselog_test_begin (suselog_test_begin (suselog_journal_new "j" "h" 0) none none 0)
        none none 0).getTest 0 1).map Test.name = some "j.group0" ∧
    ("j.group0" : String) ≠ "test0" :=
  ⟨rfl, rfl, by decide⟩

/-- Claim C2 (amended): beginning `N` groups with a NULL name in one journal
named `jn` produces the `N` distinct names `jn.group0 .. jn.group(N-1)` (the
autoname `groupI` prefixed with the journal name), provided `N` does not exceed
the 2^32 wrap of the `unsigned` counter and the journal name is short enough
that the 256-byte `snprintf` buffer (modelled as unbounded here) never
truncates; beginning `N` tests with a NULL name inside one group produces `N`
tests that all carry the owning group's name — identical, not distinct. -/
theorem claim_C2_amended (jn hn : String) (t0 : Nat) (N M : Nat) (hN : N ≤ 2 ^ 32)
    (hbytes : jn.utf8ByteSize ≤ 239) :
    (((fun j => suselog_group_begin j none none t0)^[N]
          (suselog_journal_new jn hn t0)).groups.map Group.name
        = (List.range N).map (fun i => jn ++ "." ++ ("group" ++ Nat.repr i)) ∧
      ((List.range N).map fun i => jn ++ "." ++ ("group" ++ Nat.repr i)).Nodup) ∧
    ((fun j => suselog_test_begin j none none t0)^[M]
        (suselog_group_begin (suselog_journal_new jn hn t0) none none t0)).groups.map
          (fun g => g.tests.map Test.name)
      = [List.replicate M (jn ++ "." ++ ("group" ++ Nat.repr 0))] := by
  refine ⟨⟨?_, ?_⟩, ?_⟩
  · have h := beginGroups_names t0 none N (suselog_journal_new jn hn t0)
      (show 0 + N ≤ 2 ^ 32 by omega)
    rw [h, List.range_eq_range']
    rfl
  · refine (List.nodup_range N).map ?_
    intro a b hab
    exact natRepr_injective
      (string_append_left_cancel (string_append_left_cancel hab))
  · have h := beginTests_names t0 none M
      (suselog_group_begin (suselog_journal_new jn hn t0) none none t0)
      (jn ++ "." ++ ("group" ++ Nat.repr 0)) rfl rfl
    rw [h]
    rfl

/-- Claim C2 (witness): the amended claim at `jn = "j"`, three anonymous groups
and two anonymous tests. -/
theorem claim_C2_witness :
    (((fun j => suselog_group_begin j none none 0)^[3]
          (suselog_journal_new "j" "h" 0)).groups.map Group.name
        = (List.range 3).map (fun i => "j" ++ "." ++ ("group" ++ Nat.repr i)) ∧
      ((List.range 3).map fun i => "j" ++ "." ++ ("group" ++ Nat.repr i)).Nodup) ∧
    ((fun j => suselog_test_begin j none none 0)^[2]
        (suselog_group_begin (suselog_journal_new "j" "h" 0) none none 0)).groups.map
          (fun g => g.tests.map Test.name)
      = [List.replicate 2 ("j" ++ "." ++ ("group" ++ Nat.repr 0))] :=
  claim_C2_amended "j" "h" 0 3 2 (by norm_num) (by decide)

/-- Claim C3 (counterexample): a FAILURE-status test with a single INFO record
and no FAILURE-severity record still gets a `failure` child element (with no
`message` attribute, its CDATA being the rendered INFO message) — the element is
emitted whenever the test's whole Info log renders non-empty, not only when a
record of the matching severity exists. -/
theorem claim_C3_counterexample :
    (__suselog_junit_test { name := "n", description := none, timestamp := 0,
                            status := .failure, extra_info := [⟨.info, "hello"⟩] }).children
      = [{ name := "failure", attrs := [("type", "randomFailure")], cdata := "hello\n" }] ∧
    ∀ i ∈ ({ name := "n", description := none, timestamp := 0, status := .failure,
             extra_info := [⟨.info, "hello"⟩] } : Test).extra_info,
      i.severity ≠ Severity.failure :=
  ⟨rfl, by decide⟩

/-- Claim C3 (amended): a `testcase` gets a `failure` (resp. `error`) child
element exactly when the test's status is FAILURE (resp. ERROR) and the
rendering of its whole Info log is non-empty; the emitted element's `message`
attribute equals the first recorded message of that severity when one exists
(and is absent otherwise), and its CDATA body is the rendering of the complete
Info log — every message of every severity in order, each prefixed by its
severity tag and newline-terminated — so it contains, in particular, every
message of the child's severity. -/
theorem claim_C3_amended (t : Test) :
    ((__suselog_junit_test t).children ≠ [] ↔
      ((t.status = .failure ∨ t.status = .error) ∧ renderInfoLog t.extra_info ≠ "")) ∧
    ∀ e ∈ (__suselog_junit_test t).children,
      e.cdata = renderInfoLog t.extra_info ∧
      (∀ i ∈ t.extra_info, (renderInfo i).data <:+: e.cdata.data) ∧
      (t.status = .failure →
        e = { name := "failure",
              attrs := [("type", "randomFailure")] ++
                (match suselog_test_get_message t .failure with
                 | some m => [("message", m)]
                 | none => []),
              cdata := renderInfoLog t.extra_info }) ∧
      (t.status = .error →
        e = { name := "error",
              attrs := [("type", "randomError")] ++
                (match suselog_test_get_message t .error with
                 | some m => [("message", m)]
                 | none => []),
              cdata := renderInfoLog t.extra_info }) := by
  unfold __suselog_junit_test __suselog_junit_pre_string
  cases ht : t.status
  case running => exact ⟨by simp, fun e he => by cases he⟩
  case success => exact ⟨by simp, fun e he => by cases he⟩
  case skipped => exact ⟨by simp, fun e he => by cases he⟩
  case failure =>
      dsimp only
      by_cases hs : renderInfoLog t.extra_info = ""
      · rw [if_pos hs]
        exact ⟨by simp [hs], fun e he => by cases he⟩
      · rw [if_neg hs]
        refine ⟨by simp [hs], ?_⟩
        intro e he
        rw [Option.toList_some, List.mem_singleton] at he
        subst he
        exact ⟨rfl, fun i hi => renderInfo_infix t.extra_info i hi, fun _ => rfl,
          fun habs => absurd habs (by decide)⟩
  case error =>
      dsimp only
      by_cases hs : renderInfoLog t.extra_info = ""
      · rw [if_pos hs]
        exact ⟨by simp [hs], fun e he => by cases he⟩
      · rw [if_neg hs]
        refine ⟨by simp [hs], ?_⟩
        intro e he
        rw [Option.toList_some, List.mem_singleton] at he
        subst he
        exact ⟨rfl, fun i hi => renderInfo_infix t.extra_info i hi,
          fun habs => absurd habs (by decide), fun _ => rfl⟩

/-- Claim C3 (witness): the amended claim applied to a FAILURE test with one
INFO and one FAILURE record. -/
theorem claim_C3_witness :
    (__suselog_junit_test { name := "n", description := none, timestamp := 0,
                            status := .failure,
                            extra_info := [⟨.info, "hello"⟩, ⟨.failure, "boom"⟩] }).children
        ≠ [] ∧
    ∀ e ∈ (__suselog_junit_test { name := "n", description := none, timestamp := 0,
                                  status := .failure,
                                  extra_info := [⟨.info, "hello"⟩,
                                                 ⟨.failure, "boom"⟩] }).children,
      e.cdata = renderInfoLog [⟨.info, "hello"⟩, ⟨.failure, "boom"⟩] :=
  ⟨(claim_C3_amended _).1.mpr ⟨Or.inl rfl, by decide⟩,
   fun e he => ((claim_C3_amended _).2 e he).1⟩

/-- Claim C8: after `Journal.finish()`, the journal's global Stats equal the
element-wise sum (all seven counters) of the Stats of all groups in the
journal's sequence, for every sequence of begin-group / begin-test / report
calls. -/
theorem claim_C8_stats_rollup (name hostname : String) (t0 tN : Nat) (ops : List Op) :
    (suselog_finish (runOps (suselog_journal_new name hostname t0) ops) tN).stats =
      statsSum ((suselog_finish (runOps (suselog_journal_new name hostname t0) ops)
        tN).groups.map Group.stats) := by
  have h := JInv_group_finish (runOps (suselog_journal_new name hostname t0) ops) tN
    (JInv_runOps _ ops (JInv_journal_new name hostname t0))
  exact h.2.1 (group_finish_preserves _ tN).1

/-- `suselog_test_begin` always reaches `testBeginCore` with a journal whose
current-group pointer is a valid index (creating an anonymous group first when
none is current). -/
theorem test_begin_midpoint (j : Journal) (n d : Option String) (now : Nat)
    (hval : ∀ gi, j.curGroup = some gi → gi < j.groups.length) :
    ∃ jm gi g,
      suselog_test_begin j n d now = testBeginCore jm n d now ∧
      jm.curGroup = some gi ∧
      jm.getGroup gi = some g ∧
      jm.max_name_level = j.max_name_level ∧
      (j.curGroup = none → jm.groups.length = j.groups.length + 1) := by
  cases hcg : j.curGroup with
  | none =>
      obtain ⟨_, _, _, hcg', hlen⟩ := group_begin_none_names j none now
      obtain ⟨_, _, _, _, _, p6, _, _, _, _, p11⟩ := group_finish_preserves j now
      have hg : (suselog_group_begin j none none now).getGroup j.groups.length
          = some { name := (suselog_group_finish j now).name ++ "." ++
                     ("group" ++ Nat.repr (suselog_group_finish j now).autonameIndex),
                   description := none, timestamp := now,
                   hostname := (suselog_group_finish j now).hostname,
                   id := (suselog_group_finish j now).num_groups } := by
        rw [group_begin_none_eq]
        dsimp only
        show ((suselog_group_finish j now).groups ++ [_])[j.groups.length]? = some _
        rw [← p11]
        exact List.getElem?_concat_length _ _
      refine ⟨suselog_group_begin j none none now, j.groups.length, _,
        test_begin_none_stage j n d now hcg, hcg', hg, ?_, fun _ => hlen⟩
      show (suselog_group_finish j now).max_name_level = j.max_name_level
      exact p6
  | some gi =>
      have hshape : SameShape j
          (if __suselog_test_running j then suselog_test_finish j .success now else j) := by
        split
        · exact sameShape_test_finish j .success now
        · exact SameShape.refl j
      have hlen : (if __suselog_test_running j then suselog_test_finish j .success now
          else j).groups.length = j.groups.length := groups_length_of_mapNames hshape.groupNames
      have hlt : gi < (if __suselog_test_running j then suselog_test_finish j .success now
          else j).groups.length := by
        rw [hlen]
        exact hval gi hcg
      refine ⟨if __suselog_test_running j then suselog_test_finish j .success now else j, gi,
        (if __suselog_test_running j then suselog_test_finish j .success now
          else j).groups[gi], test_begin_some_stage j n d now hcg, ?_, ?_, hshape.maxNameLevel,
        fun habs => by cases habs⟩
      · rw [hshape.curGroup, hcg]
      · exact List.getElem?_eq_getElem hlt

/-- Claim C10 (counterexample): the invariant "current test non-null implies
current group non-null" does not hold after every operation —
`suselog_group_finish` clears the current-group pointer but leaves the
current-test pointer set (pointing at the finished test of the just-finished
group). -/
theorem claim_C10_counterexample :
    (suselog_group_finish (suselog_test_begin (suselog_journal_new "j" "h" 0) none none 0)
        1).curGroup = none ∧
    (suselog_group_finish (suselog_test_begin (suselog_journal_new "j" "h" 0) none none 0)
        1).curTest = some (0, 0) :=
  ⟨rfl, rfl⟩

/-- Claim C10 (amended): beginning a test when the journal has no current group
first begins a new auto-named group (the group sequence grows by one) and makes
it current, so after every `suselog_test_begin` through the public interface the
current-test pointer designates an existing test inside the current group — the
invariant "current test non-null implies current group non-null" holds after
`suselog_test_begin`; it is however not preserved by every operation, since
`suselog_group_finish` clears the current group while leaving a stale current
test (see the counterexample). -/
theorem claim_C10_amended (j : Journal) (n d : Option String) (now : Nat)
    (hval : ∀ gi, j.curGroup = some gi → gi < j.groups.length) :
    (∃ gi ti, (suselog_test_begin j n d now).curGroup = some gi ∧
        (suselog_test_begin j n d now).curTest = some (gi, ti) ∧
        (suselog_test_begin j n d now).getTest gi ti ≠ none) ∧
    (j.curGroup = none → (suselog_test_begin j n d now).groups.length
        = j.groups.length + 1) := by
  obtain ⟨jm, gi, g, heq, hcg, hg, _, hlen⟩ := test_begin_midpoint j n d now hval
  obtain ⟨_, c2, _, c4, c5, c6⟩ := testBeginCore_char jm n d now hcg hg
  rw [heq]
  refine ⟨⟨gi, g.tests.length, c2, c4, by rw [c5]; simp⟩, ?_⟩
  intro hnone
  rw [groups_length_of_mapNames c6, hlen hnone]

/-- Claim C10 (witness): the amended claim at a fresh journal with no current
group. -/
theorem claim_C10_witness :
    (∃ gi ti,
        (suselog_test_begin (suselog_journal_new "j" "h" 0) none none 0).curGroup = some gi ∧
        (suselog_test_begin (suselog_journal_new "j" "h" 0) none none 0).curTest
          = some (gi, ti) ∧
        (suselog_test_begin (suselog_journal_new "j" "h" 0) none none 0).getTest gi ti
          ≠ none) ∧
    ((suselog_journal_new "j" "h" 0).curGroup = none →
      (suselog_test_begin (suselog_journal_new "j" "h" 0) none none 0).groups.length
        = (suselog_journal_new "j" "h" 0).groups.length + 1) :=
  claim_C10_amended (suselog_journal_new "j" "h" 0) none none 0
    (fun gi h => Option.noConfusion (show (none : Option Nat) = some gi from h))

/-- Claim C9: a test begun with a NULL name — or while the journal's configured
max-naming-level forbids per-test names, as the default policy set by
`suselog_journal_new` does — receives the owning group's name, not a fresh
autoname. -/
theorem claim_C9_default_test_name (j : Journal) (n d : Option String) (now : Nat)
    (hval : ∀ gi, j.curGroup = some gi → gi < j.groups.length)
    (hname : n = none ∨ j.max_name_level < SUSELOG_LEVEL_TEST) :
    ∃ gi ti gr t,
      (suselog_test_begin j n d now).curGroup = some gi ∧
      (suselog_test_begin j n d now).curTest = some (gi, ti) ∧
      (suselog_test_begin j n d now).getGroup gi = some gr ∧
      (suselog_test_begin j n d now).getTest gi ti = some t ∧
      t.name = gr.name := by
  obtain ⟨jm, gi, g, heq, hcg, hg, hml, _⟩ := test_begin_midpoint j n d now hval
  obtain ⟨_, c2, c3, c4, c5, _⟩ := testBeginCore_char jm n d now hcg hg
  have hres : resolveTestName jm g n = g.name := by
    rcases hname with hn0 | hlevel
    · subst hn0
      rfl
    · cases n with
      | none => rfl
      | some s =>
          show (if jm.max_name_level < SUSELOG_LEVEL_TEST then g.name
            else g.name ++ "." ++ s) = g.name
          rw [hml, if_pos hlevel]
  rw [heq]
  exact ⟨gi, g.tests.length, _, _, c2, c4, c3, c5, hres⟩

/-- Claim C9 (witness): the spec's example — `BeginTest(nil, "d")` inside group
`"mytest.group0"` under the default policy names the test `"mytest.group0"`. -/
theorem claim_C9_witness :
    (∃ gi ti gr t,
        (suselog_test_begin (suselog_group_begin (suselog_journal_new "mytest" "h" 0)
            none none 0) none (some "d") 0).curGroup = some gi ∧
        (suselog_test_begin (suselog_group_begin (suselog_journal_new "mytest" "h" 0)
            none none 0) none (some "d") 0).curTest = some (gi, ti) ∧
        (suselog_test_begin (suselog_group_begin (suselog_journal_new "mytest" "h" 0)
            none none 0) none (some "d") 0).getGroup gi = some gr ∧
        (suselog_test_begin (suselog_group_begin (suselog_journal_new "mytest" "h" 0)
            none none 0) none (some "d") 0).getTest gi ti = some t ∧
        t.name = gr.name) ∧
    ((suselog_test_begin (suselog_group_begin (suselog_journal_new "mytest" "h" 0)
        none none 0) none (some "d") 0).getTest 0 0).map Test.name = some "mytest.group0" :=
  ⟨claim_C9_default_test_name
      (suselog_group_begin (suselog_journal_new "mytest" "h" 0) none none 0) none (some "d") 0
      (fun gi h => by
        have h' : some 0 = some gi := h
        injection h' with hh
        show gi < 1
        omega)
      (Or.inl rfl),
   rfl⟩

end Suselog
